import Mathlib

/-!
Shallow embedding of `update_bt_trackers.py` (BTtrackers-updater).

The program keeps an aria2 `bt-tracker=` announce list fresh: it fetches
tracker URLs from remote sources (with per-source retry), validates them,
merges them with the current state of a target (a config file or a running
aria2 reached over JSON-RPC), and writes the merged set back.

Conventions of the embedding:
* Python strings are Lean `String`s; the handful of Python string
  operations the program uses (`strip`, `startswith`, slicing, `split`,
  `re.split`, `','.join`, `readlines`) are modelled character-exactly on
  `List Char`.
* Python `set` is `Finset String`; `sorted(...)` is `Finset.sort (· ≤ ·)`
  (Lean's `String` linear order is lexicographic on the character list,
  matching Python's code-point comparison on these ASCII strings).
* Network and RPC effects are modelled by oracles: an HTTP oracle maps
  (url, attempt index) to an outcome, and the RPC world records the
  outcome of each RPC method.  All exception handling in the source is
  explicit `match`/`if` on those outcomes, so every embedded function is
  total exactly where the Python never lets an exception escape.
-/

/-- Python `str.strip` whitespace class restricted to the ASCII whitespace
characters (the only ones that occur in this program's data). -/
def pyWs (c : Char) : Bool :=
  c = ' ' || c = '\t' || c = '\n' || c = '\r' || c = '\x0b' || c = '\x0c'

/-- Drop leading whitespace (left half of Python `strip`). -/
def stripLeft (l : List Char) : List Char := l.dropWhile pyWs

/-- Drop trailing whitespace (right half of Python `strip`). -/
def stripRight (l : List Char) : List Char := (l.reverse.dropWhile pyWs).reverse

/-- Python `str.strip()` on the character list. -/
def pyStripList (l : List Char) : List Char := stripRight (stripLeft l)

/-- Python `str.strip()`. -/
def pyStrip (s : String) : String := ⟨pyStripList s.data⟩

/-- Python `s.startswith(pre)`. -/
def pyStartsWith (s pre : String) : Bool := pre.data.isPrefixOf s.data

/-- Python slicing `s[n:]`. -/
def pyDropChars (s : String) (n : Nat) : String := ⟨s.data.drop n⟩

/-- Split at the first occurrence of `pat`, returning the part before and
the part after (Python `s.split(pat, 1)` when it yields two parts;
`none` when `pat` does not occur). -/
def splitFirst (pat : List Char) : List Char → Option (List Char × List Char)
  | [] => if pat.isPrefixOf ([] : List Char) then some ([], []) else none
  | c :: rest =>
      if pat.isPrefixOf (c :: rest) then some ([], (c :: rest).drop pat.length)
      else (splitFirst pat rest).map fun p => (c :: p.1, p.2)

/-- `is_valid_tracker` (source lines 278-298): non-empty, begins with
`http://`, `https://` or `udp://`, and the part after the first `://`
is non-empty. -/
def is_valid_tracker (t : String) : Bool :=
  if t.data.isEmpty then false
  else if !(pyStartsWith t "http://" || pyStartsWith t "https://" || pyStartsWith t "udp://") then
    false
  else
    match splitFirst "://".data t.data with
    | some p => !p.2.isEmpty
    | none => false

/-- The spec's reading of the validator: the string starts with an accepted
scheme and the remainder after the scheme separator is non-empty. -/
def validSpec (t : String) : Prop :=
  (∃ r, r ≠ [] ∧ t.data = "http://".data ++ r) ∨
  (∃ r, r ≠ [] ∧ t.data = "https://".data ++ r) ∨
  (∃ r, r ≠ [] ∧ t.data = "udp://".data ++ r)

/-- Separator class of the regex `[,\n]+` in `extract_current_bt_trackers`. -/
def isSep (c : Char) : Bool := c = ',' || c = '\n'

/-- `re.split(r'[,\n]+', s)`: split on maximal non-empty runs of `,`/`\n`.
`acc` holds the current token reversed; `lastSep` records that the
previous character was a separator, so further separators of the same
run are absorbed. -/
def splitSepsF (lastSep : Bool) (acc : List Char) : List Char → List (List Char)
  | [] => [acc.reverse]
  | c :: rest =>
      if isSep c then
        if lastSep then splitSepsF true [] rest
        else acc.reverse :: splitSepsF true [] rest
      else splitSepsF false (c :: acc) rest

/-- `re.split(r'[,\n]+', s)` on a string. -/
def pySplitSeps (s : String) : List String := (splitSepsF false [] s.data).map fun l => ⟨l⟩

/-- Python `s.split(',')` (every single comma splits). -/
def splitCommaSingle (acc : List Char) : List Char → List (List Char)
  | [] => [acc.reverse]
  | c :: rest =>
      if c = ',' then acc.reverse :: splitCommaSingle [] rest
      else splitCommaSingle (c :: acc) rest

/-- Python `s.split(',')` on a string. -/
def pySplitComma (s : String) : List String := (splitCommaSingle [] s.data).map fun l => ⟨l⟩

/-- Python `','.join` on character lists. -/
def joinCommaData : List (List Char) → List Char
  | [] => []
  | [t] => t
  | t :: u :: rest => t ++ ',' :: joinCommaData (u :: rest)

/-- Python `','.join`. -/
def joinComma (l : List String) : String := ⟨joinCommaData (l.map String.data)⟩

/-- Python `f.readlines()` applied to a content string: lines keep their
trailing newline; a last line without a newline is kept as-is. -/
def readlinesGo (acc : List Char) : List Char → List (List Char)
  | [] => if acc.isEmpty then [] else [acc.reverse]
  | c :: rest =>
      if c = '\n' then ('\n' :: acc).reverse :: readlinesGo [] rest
      else readlinesGo (c :: acc) rest

/-- Python `f.readlines()` of a file content. -/
def pyReadlines (s : String) : List String := (readlinesGo [] s.data).map fun l => ⟨l⟩

/-- Python `f.writelines(lines)`: the resulting file content. -/
def writelinesContent (lines : List String) : String := ⟨(lines.map String.data).flatten⟩

/-- Matching condition of the rewrite loop (source line 488):
`line.strip().startswith("bt-tracker=")`. -/
def lineMatches (l : String) : Bool := pyStartsWith (pyStrip l) "bt-tracker="

/-- `extract_current_bt_trackers` (source lines 300-310): scan for a
stripped line starting with `bt-tracker=` whose remainder is non-empty
after stripping; split it on runs of commas/newlines, strip the pieces,
drop empty ones.  A matching line with an empty remainder does not
return: the loop continues with the following lines. -/
def extract_current_bt_trackers : List String → List String
  | [] => []
  | line :: rest =>
      let ls := pyStrip line
      if pyStartsWith ls "bt-tracker=" then
        let tracker_str := pyStrip (pyDropChars ls 11)
        if tracker_str.data.isEmpty then extract_current_bt_trackers rest
        else ((pySplitSeps tracker_str).map pyStrip).filter fun t => !t.data.isEmpty
      else extract_current_bt_trackers rest

/-- The rewrite loop of `update_bt_trackers_config_only`
(source lines 485-492): replace matching lines, record whether any
line matched. -/
def rewriteGo (tl : String) : List String → List String × Bool
  | [] => ([], false)
  | l :: rest =>
      let r := rewriteGo tl rest
      if lineMatches l then (tl :: r.1, true) else (l :: r.1, r.2)

/-- Lines 485-497: rewrite every matching line to the new directive line;
append it when no line matched. -/
def rewriteLines (lines : List String) (tl : String) : List String :=
  let r := rewriteGo tl lines
  if r.2 then r.1 else r.1 ++ [tl]

/-- The new directive line (source line 482). -/
def trackerLine (combined_list : List String) : String :=
  "bt-tracker=" ++ joinComma combined_list ++ "\n"

/-- Outcome of one reconciliation pass: the sorted merged list and the
added/removed diffs (source lines 477-479 and 504-505). -/
structure ReconResult where
  merged : List String
  added : Finset String
  removed : Finset String
deriving DecidableEq

/-- The Reconciler: `combined_set = old_set.union(set(new_trackers))`,
`combined_list = sorted(combined_set)`, `added = combined_set - old_set`,
`removed = old_set - combined_set`. -/
def mergeTrackers (old fresh : Finset String) : ReconResult :=
  let combined := old ∪ fresh
  { merged := combined.sort (· ≤ ·)
    added := combined \ old
    removed := old \ combined }

/-- Outcome of one HTTP GET, mirroring the except-arms of
`fetch_trackers` (source lines 241-266). -/
inductive HttpOutcome where
  | response (status : Nat) (lines : List String)
  | timeout
  | connError
  | otherError
deriving DecidableEq

/-- The network, as the retry loop observes it: outcome of attempt `k`
against a source url. -/
def HttpOracle : Type := String → Nat → HttpOutcome

/-- An attempt counts as successful iff it returns HTTP 200. -/
def isSuccess : HttpOutcome → Bool
  | .response 200 _ => true
  | _ => false

/-- Body processing of a 200 response (source lines 244-253): strip each
line, drop blank and `#` lines, keep the valid trackers. -/
def processBody (lines : List String) : Finset String :=
  ((lines.map pyStrip).filter fun l =>
      !l.data.isEmpty && !pyStartsWith l "#" && is_valid_tracker l).toFinset

/-- Events observable from the retry loop: an attempt, or `time.sleep`. -/
inductive FetchEv where
  | att (url : String) (k : Nat)
  | slp (secs : Nat)
deriving DecidableEq

/-- The per-source retry loop (source lines 236-272), with
`fuel = max_retries - k`: attempt `k`; on HTTP 200 collect the body and
stop; otherwise sleep 2 and retry while attempts remain
(`attempt < max_retries - 1`). -/
def fetchSourceGo (o : HttpOracle) (url : String) : Nat → Nat → Finset String × Bool × List FetchEv
  | 0, _ => (∅, false, [])
  | fuel + 1, k =>
      match o url k with
      | .response 200 lines => (processBody lines, true, [.att url k])
      | _ =>
          if fuel = 0 then (∅, false, [.att url k])
          else
            let r := fetchSourceGo o url fuel (k + 1)
            (r.1, r.2.1, .att url k :: .slp 2 :: r.2.2)

/-- One source: trackers collected, success flag, event trace. -/
def fetchSource (o : HttpOracle) (url : String) (maxRetries : Nat) :
    Finset String × Bool × List FetchEv :=
  fetchSourceGo o url maxRetries 0

/-- The outer source loop of `fetch_trackers`: per-source results are
unioned (`trackers.update(source_trackers)`). -/
def fetchAllGo (o : HttpOracle) (maxRetries : Nat) : List String → Finset String × List FetchEv
  | [] => (∅, [])
  | u :: rest =>
      let r := fetchSource o u maxRetries
      let rr := fetchAllGo o maxRetries rest
      (r.1 ∪ rr.1, r.2.2 ++ rr.2)

/-- `fetch_trackers` (source lines 227-275): the union over all sources,
returned as `sorted(trackers)`, together with the event trace. -/
def fetch_trackers (o : HttpOracle) (sources : List String) (maxRetries : Nat) :
    List String × List FetchEv :=
  let r := fetchAllGo o maxRetries sources
  (r.1.sort (· ≤ ·), r.2)

/-- The configuration fields the reconciliation core reads. -/
structure Cfg where
  tracker_sources : List String
  max_retries : Nat
  rpcEnabled : Bool
  update_mode : String
  fallback_to_config : Bool

/-- The aria2 config file as the program observes it: the three
precondition bits checked by `validate_config_file`, and its lines. -/
structure FileState where
  present : Bool
  readable : Bool
  writable : Bool
  lines : List String
deriving DecidableEq

/-- The RPC side: fault switches for the three RPC methods used, and the
server's current global options. -/
structure RpcState where
  versionFails : Bool
  optionQueryFails : Bool
  changeFails : Bool
  options : List (String × String)
deriving DecidableEq

/-- The world one run acts on. -/
structure World where
  file : FileState
  http : HttpOracle
  rpc : RpcState

/-- Python `dict.get(key, '')` on an association list. -/
def lookupDefault (kvs : List (String × String)) (key : String) : String :=
  ((kvs.find? fun p => p.1 == key).map Prod.snd).getD ""

/-- `aria2.getGlobalOption` through `_make_request` (source lines
105-136, 152-154): the server's options, or the raised error. -/
def get_global_option (r : RpcState) : Except String (List (String × String)) :=
  if r.optionQueryFails then .error "rpc error" else .ok r.options

/-- `Aria2RPC.get_bt_tracker` (source lines 160-170): query the global
options; any error is caught and yields `[]`; otherwise split the
`bt-tracker` option on commas, strip, drop empties. -/
def get_bt_tracker (r : RpcState) : List String :=
  match get_global_option r with
  | .error _ => []
  | .ok options =>
      let tracker_str := lookupDefault options "bt-tracker"
      if !tracker_str.data.isEmpty then
        ((pySplitComma tracker_str).map pyStrip).filter fun t => !t.data.isEmpty
      else []

/-- `Aria2RPC.test_connection` (source lines 138-146): the version query
succeeds. -/
def test_connection (r : RpcState) : Bool := !r.versionFails

/-- `aria2.changeGlobalOption` server effect: set one option. -/
def setOption (kvs : List (String × String)) (key v : String) : List (String × String) :=
  if kvs.any fun p => p.1 == key then kvs.map fun p => if p.1 == key then (p.1, v) else p
  else kvs ++ [(key, v)]

/-- `Aria2RPC.update_bt_tracker` (source lines 172-191): refuse an empty
list, else issue the option-change call.  Returns (success, new server
state, whether the change call was issued). -/
def rpc_update_bt_tracker (r : RpcState) (trackers : List String) :
    Bool × RpcState × Bool :=
  if trackers.isEmpty then (false, r, false)
  else if r.changeFails then (false, r, true)
  else (true, { r with options := setOption r.options "bt-tracker" (joinComma trackers) }, true)

/-- Result of one orchestrated update: overall success, the world after
the run, and whether an RPC option-change call was issued. -/
structure UpdateOut where
  success : Bool
  world : World
  rpcChangeIssued : Bool

/-- `update_bt_trackers_via_rpc` (source lines 349-402): requires RPC
enabled and a passing connection test; reads the current set (errors
caught as `[]`), fetches, aborts on an empty fetch, merges and pushes. -/
def update_bt_trackers_via_rpc (cfg : Cfg) (w : World) : UpdateOut :=
  if !cfg.rpcEnabled then ⟨false, w, false⟩
  else if !test_connection w.rpc then ⟨false, w, false⟩
  else
    let old_set := (get_bt_tracker w.rpc).toFinset
    let new_trackers := (fetch_trackers w.http cfg.tracker_sources cfg.max_retries).1
    if new_trackers.isEmpty then ⟨false, w, false⟩
    else
      let combined_list := (old_set ∪ new_trackers.toFinset).sort (· ≤ ·)
      let r := rpc_update_bt_tracker w.rpc combined_list
      ⟨r.1, { w with rpc := r.2.1 }, r.2.2⟩

/-- `validate_config_file` (source lines 332-346). -/
def validate_config_file (f : FileState) : Bool := f.present && f.readable && f.writable

/-- `update_bt_trackers_config_only` (source lines 445-525): validate the
file, read it, extract the old set, fetch, abort on an empty fetch,
merge, rewrite the lines.  The backup step (line 456) copies the file
aside and never stops the run, so it does not touch the observed state. -/
def update_bt_trackers_config_only (cfg : Cfg) (w : World) : Bool × World :=
  if !validate_config_file w.file then (false, w)
  else
    let lines := w.file.lines
    let old_set := (extract_current_bt_trackers lines).toFinset
    let new_trackers := (fetch_trackers w.http cfg.tracker_sources cfg.max_retries).1
    if new_trackers.isEmpty then (false, w)
    else
      let combined_list := (old_set ∪ new_trackers.toFinset).sort (· ≤ ·)
      let new_lines := rewriteLines lines (trackerLine combined_list)
      (true, { w with file := { w.file with lines := new_lines } })

/-- `update_bt_trackers_hybrid` (source lines 405-442): run the config
path, then the RPC path when RPC is enabled; overall success is the
disjunction. -/
def update_bt_trackers_hybrid (cfg : Cfg) (w : World) : UpdateOut :=
  let c := update_bt_trackers_config_only cfg w
  if cfg.rpcEnabled then
    let r := update_bt_trackers_via_rpc cfg c.2
    ⟨c.1 || r.success, r.world, r.rpcChangeIssued⟩
  else ⟨c.1 || false, c.2, false⟩

/-- `update_bt_trackers` (source lines 528-556): dispatch on the update
mode, with the rpc-mode fallback logic. -/
def update_bt_trackers (cfg : Cfg) (w : World) : UpdateOut :=
  if cfg.update_mode == "rpc" then
    if cfg.rpcEnabled then
      let r := update_bt_trackers_via_rpc cfg w
      if !r.success && cfg.fallback_to_config then
        let c := update_bt_trackers_config_only cfg r.world
        ⟨c.1, c.2, r.rpcChangeIssued⟩
      else r
    else if cfg.fallback_to_config then
      let c := update_bt_trackers_config_only cfg w
      ⟨c.1, c.2, false⟩
    else ⟨false, w, false⟩
  else if cfg.update_mode == "hybrid" then update_bt_trackers_hybrid cfg w
  else
    let c := update_bt_trackers_config_only cfg w
    ⟨c.1, c.2, false⟩

/-- A line qualifies for `extract_current_bt_trackers`: its stripped form
starts with `bt-tracker=` and the remainder is non-empty after stripping. -/
def lineQualifies (l : String) : Bool :=
  lineMatches l && !(pyStrip (pyDropChars (pyStrip l) 11)).data.isEmpty

/-- Parsing of a non-empty directive value (source lines 308-309). -/
def parseTrackerValue (v : String) : List String :=
  ((pySplitSeps v).map pyStrip).filter fun t => !t.data.isEmpty

/-- A network where every attempt times out. -/
def failOracle : HttpOracle := fun _ _ => .timeout

/-- A network where every attempt returns one valid tracker line. -/
def okOracle : HttpOracle := fun _ _ => .response 200 ["udp://a.com:1/x"]

/-- A healthy RPC endpoint with no trackers configured. -/
def sampleRpc : RpcState := ⟨false, false, false, []⟩

/-- An RPC endpoint whose option query raises. -/
def errRpc : RpcState := ⟨false, true, false, []⟩

/-- A valid config file with one unrelated line. -/
def sampleFile : FileState := ⟨true, true, true, ["x=1\n"]⟩

/-- A world with a dead network. -/
def sampleWorld : World := ⟨sampleFile, failOracle, sampleRpc⟩

/-- RPC enabled, fallback on, rpc mode. -/
def cfgRpcOn : Cfg := ⟨["https://s.example/all.txt"], 3, true, "rpc", true⟩

/-- RPC disabled, hybrid mode. -/
def cfgNoRpc : Cfg := ⟨["https://s.example/all.txt"], 3, false, "hybrid", true⟩

/-- RPC mode but RPC disabled, fallback enabled. -/
def cfgRpcModeFb : Cfg := ⟨["https://s.example/all.txt"], 3, false, "rpc", true⟩

/-- RPC mode but RPC disabled, fallback disabled. -/
def cfgRpcModeNoFb : Cfg := ⟨["https://s.example/all.txt"], 3, false, "rpc", false⟩

theorem isPrefixOf_exists {l₁ l₂ : List Char} :
    l₁.isPrefixOf l₂ = true ↔ ∃ t, l₁ ++ t = l₂ :=
  Iff.trans List.isPrefixOf_iff_prefix Iff.rfl

theorem valid_http (rest : List Char) :
    is_valid_tracker ⟨"http://".data ++ rest⟩ = !rest.isEmpty := by
  simp [is_valid_tracker, pyStartsWith, splitFirst, List.isPrefixOf]

theorem valid_https (rest : List Char) :
    is_valid_tracker ⟨"https://".data ++ rest⟩ = !rest.isEmpty := by
  simp [is_valid_tracker, pyStartsWith, splitFirst, List.isPrefixOf]

theorem valid_udp (rest : List Char) :
    is_valid_tracker ⟨"udp://".data ++ rest⟩ = !rest.isEmpty := by
  simp [is_valid_tracker, pyStartsWith, splitFirst, List.isPrefixOf]

/-- Claim C3: `is_valid` accepts exactly the scheme-prefixed strings with a
non-empty remainder after the scheme separator, and the spec's four
sample evaluations hold. -/
theorem c3_is_valid_tracker_iff :
    (∀ t : String, is_valid_tracker t = true ↔ validSpec t) ∧
    is_valid_tracker "udp://x.com:80" = true ∧
    is_valid_tracker "http://" = false ∧
    is_valid_tracker "ftp://x.com" = false ∧
    is_valid_tracker "" = false := by
  refine ⟨fun t => ⟨fun h => ?_, fun h => ?_⟩, by decide, by decide, by decide, by decide⟩
  · by_cases h1 : pyStartsWith t "http://"
    · obtain ⟨r, hr⟩ := isPrefixOf_exists.mp h1
      have ht : t = ⟨"http://".data ++ r⟩ := String.ext hr.symm
      rw [ht, valid_http] at h
      exact Or.inl ⟨r, by simpa using h, by rw [ht]⟩
    · by_cases h2 : pyStartsWith t "https://"
      · obtain ⟨r, hr⟩ := isPrefixOf_exists.mp h2
        have ht : t = ⟨"https://".data ++ r⟩ := String.ext hr.symm
        rw [ht, valid_https] at h
        exact Or.inr (Or.inl ⟨r, by simpa using h, by rw [ht]⟩)
      · by_cases h3 : pyStartsWith t "udp://"
        · obtain ⟨r, hr⟩ := isPrefixOf_exists.mp h3
          have ht : t = ⟨"udp://".data ++ r⟩ := String.ext hr.symm
          rw [ht, valid_udp] at h
          exact Or.inr (Or.inr ⟨r, by simpa using h, by rw [ht]⟩)
        · exfalso
          unfold is_valid_tracker at h
          rw [Bool.eq_false_iff.mpr h1, Bool.eq_false_iff.mpr h2,
            Bool.eq_false_iff.mpr h3] at h
          simp at h
  · rcases h with ⟨r, hne, hr⟩ | ⟨r, hne, hr⟩ | ⟨r, hne, hr⟩ <;>
      rw [show t = ⟨t.data⟩ from rfl, hr]
    · rw [valid_http]; simpa using hne
    · rw [valid_https]; simpa using hne
    · rw [valid_udp]; simpa using hne

/-- Claim C4, counterexample: The full reconciliation result is not
commutative: swapping `old` and `fresh` changes the `added` diff. -/
theorem c4_counterexample :
    mergeTrackers ∅ {"a"} ≠ mergeTrackers {"a"} ∅ := by
  intro h
  have h2 := congrArg ReconResult.added h
  simp only [mergeTrackers, Finset.empty_union, Finset.union_empty, Finset.sdiff_empty,
    Finset.sdiff_self] at h2
  exact Finset.singleton_ne_empty _ h2

/-- Claim C4, amended: `merged = old ∪ fresh` (as a set), `added = merged −
old`, the merged list and the removed set are commutative in the two
arguments, merging a set with itself returns it with an empty `added`
diff, `removed` is always empty, and the merged list is sorted
lexicographically ascending. -/
theorem c4_merge_properties (old fresh S : Finset String) :
    (mergeTrackers old fresh).merged.toFinset = old ∪ fresh ∧
    (mergeTrackers old fresh).added = (old ∪ fresh) \ old ∧
    (mergeTrackers old fresh).merged = (mergeTrackers fresh old).merged ∧
    (mergeTrackers old fresh).removed = (mergeTrackers fresh old).removed ∧
    (mergeTrackers S S).merged.toFinset = S ∧
    (mergeTrackers S S).added = ∅ ∧
    (mergeTrackers old fresh).removed = ∅ ∧
    List.Sorted (fun a b : String => a.data < b.data) (mergeTrackers old fresh).merged := by
  have hrem : ∀ u v : Finset String, u \ (u ∪ v) = ∅ :=
    fun u v => Finset.sdiff_eq_empty_iff_subset.mpr Finset.subset_union_left
  refine ⟨Finset.sort_toFinset _ _, rfl, ?_, ?_, ?_, ?_, hrem old fresh, ?_⟩
  · show (old ∪ fresh).sort (· ≤ ·) = (fresh ∪ old).sort (· ≤ ·)
    rw [Finset.union_comm]
  · show old \ (old ∪ fresh) = fresh \ (fresh ∪ old)
    rw [hrem, hrem]
  · show ((S ∪ S).sort (· ≤ ·)).toFinset = S
    rw [Finset.sort_toFinset, Finset.union_self]
  · show (S ∪ S) \ S = ∅
    rw [Finset.union_self, Finset.sdiff_self]
  · exact (Finset.sort_sorted_lt (old ∪ fresh)).imp fun hab => String.lt_iff_toList_lt.mp hab

theorem rewriteGo_fst (tl : String) (lines : List String) :
    (rewriteGo tl lines).1 = lines.map fun l => if lineMatches l then tl else l := by
  induction lines with
  | nil => rfl
  | cons l rest ih =>
      by_cases h : lineMatches l
      · simp [rewriteGo, h, ih]
      · simp [rewriteGo, h, ih]

theorem rewriteGo_snd (tl : String) (lines : List String) :
    (rewriteGo tl lines).2 = lines.any lineMatches := by
  induction lines with
  | nil => rfl
  | cons l rest ih =>
      by_cases h : lineMatches l
      · simp [rewriteGo, h]
      · simp [rewriteGo, h, ih]

/-- Claim C1, counterexample: With two directive lines in the file, the
rewrite replaces the *second* one as well: it does not pass through
unchanged as the claim states. -/
theorem c1_counterexample :
    rewriteLines ["bt-tracker=a\n", "x=1\n", "bt-tracker=b\n"] "bt-tracker=c\n" =
      ["bt-tracker=c\n", "x=1\n", "bt-tracker=c\n"] ∧
    ("bt-tracker=c\n" : String) ≠ "bt-tracker=b\n" := by decide

/-- Claim C1, amended: The rewrite replaces *every* line whose stripped
form begins with `bt-tracker=` by the new directive line, passes every
other line through unchanged in place, and appends the directive line at
end-of-file when no line matched. -/
theorem c1_rewrite_all_matching (lines : List String) (tl : String) :
    (lines.any lineMatches = true →
        rewriteLines lines tl = lines.map fun l => if lineMatches l then tl else l) ∧
    (lines.any lineMatches = false → rewriteLines lines tl = lines ++ [tl]) := by
  constructor <;> intro h
  · simp [rewriteLines, rewriteGo_snd, h, rewriteGo_fst]
  · have hall : ∀ l ∈ lines, lineMatches l = false := by
      simpa [List.any_eq_false] using h
    have hmap : (lines.map fun l => if lineMatches l then tl else l) = lines := by
      conv_rhs => rw [← List.map_id lines]
      exact List.map_congr_left fun a ha => by simp [hall a ha]
    simp [rewriteLines, rewriteGo_snd, h, rewriteGo_fst, hmap]

theorem c1_witness :
    rewriteLines ["bt-tracker=old\n"] "bt-tracker=new\n" = ["bt-tracker=new\n"] ∧
    rewriteLines ["x=1\n"] "bt-tracker=new\n" = ["x=1\n", "bt-tracker=new\n"] :=
  ⟨((c1_rewrite_all_matching ["bt-tracker=old\n"] "bt-tracker=new\n").1 (by decide)).trans
      (by decide),
   ((c1_rewrite_all_matching ["x=1\n"] "bt-tracker=new\n").2 (by decide)).trans (by decide)⟩

theorem extract_cons_skip (l : String) (rest : List String) (h : lineQualifies l = false) :
    extract_current_bt_trackers (l :: rest) = extract_current_bt_trackers rest := by
  by_cases hm : lineMatches l
  · have hv : (pyStrip (pyDropChars (pyStrip l) 11)).data.isEmpty = true := by
      simpa [lineQualifies, hm] using h
    have hm' : pyStartsWith (pyStrip l) "bt-tracker=" = true := hm
    simp [extract_current_bt_trackers, hm', hv]
  · have hm' : pyStartsWith (pyStrip l) "bt-tracker=" = false := by
      simpa [lineMatches] using hm
    simp [extract_current_bt_trackers, hm']

theorem extract_cons_hit (l : String) (rest : List String) (h : lineQualifies l = true) :
    extract_current_bt_trackers (l :: rest) =
      parseTrackerValue (pyStrip (pyDropChars (pyStrip l) 11)) := by
  have hm : lineMatches l = true := (Bool.and_eq_true_iff.mp h).1
  have hv : (pyStrip (pyDropChars (pyStrip l) 11)).data.isEmpty = false := by
    have := (Bool.and_eq_true_iff.mp h).2
    simpa using this
  have hm' : pyStartsWith (pyStrip l) "bt-tracker=" = true := hm
  simp [extract_current_bt_trackers, parseTrackerValue, hm', hv]

theorem extract_all_skip (lines : List String) (h : ∀ p ∈ lines, lineQualifies p = false) :
    extract_current_bt_trackers lines = [] := by
  induction lines with
  | nil => rfl
  | cons l rest ih =>
      rw [extract_cons_skip l rest (h l (by simp))]
      exact ih fun p hp => h p (by simp [hp])

/-- Claim C7, counterexample: A `bt-tracker=` line with an empty value is
skipped and a *later* matching line determines the result, so the first
matching line alone does not determine it. -/
theorem c7_counterexample :
    extract_current_bt_trackers ["bt-tracker=\n", "bt-tracker=udp://a:1/x\n"] =
      ["udp://a:1/x"] ∧
    extract_current_bt_trackers ["bt-tracker=\n"] = [] := by decide

/-- Claim C7, amended: `read_current` parses the first line whose stripped
form begins with `bt-tracker=` *and* whose remainder after the prefix is
non-empty after trimming; matching lines with an empty remainder are
skipped.  When no line qualifies it returns the empty list without
error. -/
theorem c7_extract_reader :
    (∀ pre (l : String) post,
        (∀ p ∈ pre, lineQualifies p = false) → lineQualifies l = true →
        extract_current_bt_trackers (pre ++ l :: post) =
          parseTrackerValue (pyStrip (pyDropChars (pyStrip l) 11))) ∧
    (∀ lines, (∀ p ∈ lines, lineQualifies p = false) →
        extract_current_bt_trackers lines = []) := by
  constructor
  · intro pre l post hpre hl
    induction pre with
    | nil => simpa using extract_cons_hit l post hl
    | cons p rest ih =>
        rw [List.cons_append, extract_cons_skip _ _ (hpre p (by simp))]
        exact ih fun q hq => hpre q (by simp [hq])
  · exact extract_all_skip

theorem c7_witness :
    extract_current_bt_trackers ["# c\n", "bt-tracker= udp://a:1/x , http://b/ann\n"] =
      ["udp://a:1/x", "http://b/ann"] :=
  (c7_extract_reader.1 ["# c\n"] "bt-tracker= udp://a:1/x , http://b/ann\n" []
      (by decide) (by decide)).trans (by decide)

/-- Claim C2, counterexample: When the global-option query fails,
`get_bt_tracker` *does* return a value (the empty list), and the RPC
update as a whole can still succeed — the failure is not fatal. -/
theorem c2_counterexample :
    get_bt_tracker errRpc = [] ∧
    (update_bt_trackers_via_rpc cfgRpcOn ⟨sampleFile, okOracle, errRpc⟩).success = true := by
  refine ⟨rfl, ?_⟩
  have hg : get_bt_tracker errRpc = [] := rfl
  have hfetch : (fetch_trackers okOracle ["https://s.example/all.txt"] 3).1
      = ["udp://a.com:1/x"] := by
    have h1 : (fetchAllGo okOracle 3 ["https://s.example/all.txt"]).1
        = {"udp://a.com:1/x"} := by decide
    show Finset.sort (· ≤ ·) (fetchAllGo okOracle 3 ["https://s.example/all.txt"]).1
        = ["udp://a.com:1/x"]
    rw [h1, Finset.sort_singleton]
  have hsort : ((([] : List String).toFinset ∪ ["udp://a.com:1/x"].toFinset)).sort (· ≤ ·)
      = ["udp://a.com:1/x"] := by
    simp [Finset.sort_singleton]
  simp [update_bt_trackers_via_rpc, cfgRpcOn, test_connection, errRpc, hg, hfetch, hsort,
    rpc_update_bt_tracker]
  simp [show get_bt_tracker ⟨false, true, false, ([] : List (String × String))⟩
      = ([] : List String) from rfl, Finset.sort_singleton]

/-- Claim C2, amended: When the RPC query for the global options fails,
`get_bt_tracker` catches the error and returns the empty list; the
target's update then proceeds treating the current set as empty. -/
theorem c2_get_bt_tracker_error_returns_empty (r : RpcState)
    (h : ∃ e, get_global_option r = Except.error e) :
    get_bt_tracker r = [] := by
  obtain ⟨e, he⟩ := h
  simp [get_bt_tracker, he]

theorem c2_witness : get_bt_tracker errRpc = [] :=
  c2_get_bt_tracker_error_returns_empty errRpc ⟨"rpc error", rfl⟩

/-- Claim C6: When the fetch yields zero trackers, both the config-file
path and the RPC path return failure, leave the world unchanged, and
issue no option-change call. -/
theorem c6_empty_fetch_aborts (cfg : Cfg) (w : World)
    (h : (fetch_trackers w.http cfg.tracker_sources cfg.max_retries).1 = []) :
    update_bt_trackers_config_only cfg w = (false, w) ∧
    update_bt_trackers_via_rpc cfg w = ⟨false, w, false⟩ := by
  have hempty : (fetch_trackers w.http cfg.tracker_sources cfg.max_retries).1.isEmpty = true := by
    simp [h]
  constructor
  · by_cases hv : validate_config_file w.file <;>
      simp [update_bt_trackers_config_only, hv, hempty]
  · by_cases he : cfg.rpcEnabled
    · by_cases ht : test_connection w.rpc <;>
        simp [update_bt_trackers_via_rpc, he, ht, hempty]
    · simp [update_bt_trackers_via_rpc, he]

theorem c6_witness :
    update_bt_trackers_config_only cfgRpcOn sampleWorld = (false, sampleWorld) ∧
    update_bt_trackers_via_rpc cfgRpcOn sampleWorld = ⟨false, sampleWorld, false⟩ :=
  c6_empty_fetch_aborts cfgRpcOn sampleWorld (by
    have h1 : (fetchAllGo sampleWorld.http cfgRpcOn.max_retries cfgRpcOn.tracker_sources).1
        = ∅ := by decide
    show Finset.sort (· ≤ ·)
        (fetchAllGo sampleWorld.http cfgRpcOn.max_retries cfgRpcOn.tracker_sources).1 = []
    rw [h1, Finset.sort_empty])

/-- Claim C9: With RPC disabled, hybrid mode produces exactly the config-only
file mutation and success value (and issues no RPC call). -/
theorem c9_hybrid_rpc_disabled_eq_config (cfg : Cfg) (w : World) (h : cfg.rpcEnabled = false) :
    update_bt_trackers_hybrid cfg w =
      ⟨(update_bt_trackers_config_only cfg w).1,
       (update_bt_trackers_config_only cfg w).2, false⟩ := by
  simp [update_bt_trackers_hybrid, h]

theorem c9_witness :
    update_bt_trackers_hybrid cfgNoRpc sampleWorld =
      ⟨(update_bt_trackers_config_only cfgNoRpc sampleWorld).1,
       (update_bt_trackers_config_only cfgNoRpc sampleWorld).2, false⟩ :=
  c9_hybrid_rpc_disabled_eq_config cfgNoRpc sampleWorld rfl

/-- Claim C10: In `rpc` mode with RPC disabled: with fallback the
orchestrator returns the config-path result as the overall outcome;
without fallback it returns failure touching nothing. -/
theorem c10_rpc_mode_rpc_disabled (cfg : Cfg) (w : World)
    (hm : cfg.update_mode = "rpc") (he : cfg.rpcEnabled = false) :
    (cfg.fallback_to_config = true →
        update_bt_trackers cfg w =
          ⟨(update_bt_trackers_config_only cfg w).1,
           (update_bt_trackers_config_only cfg w).2, false⟩) ∧
    (cfg.fallback_to_config = false → update_bt_trackers cfg w = ⟨false, w, false⟩) := by
  constructor <;> intro hf <;> simp [update_bt_trackers, hm, he, hf]

theorem c10_witness :
    update_bt_trackers cfgRpcModeFb sampleWorld =
      ⟨(update_bt_trackers_config_only cfgRpcModeFb sampleWorld).1,
       (update_bt_trackers_config_only cfgRpcModeFb sampleWorld).2, false⟩ ∧
    update_bt_trackers cfgRpcModeNoFb sampleWorld = ⟨false, sampleWorld, false⟩ :=
  ⟨(c10_rpc_mode_rpc_disabled cfgRpcModeFb sampleWorld rfl rfl).1 rfl,
   (c10_rpc_mode_rpc_disabled cfgRpcModeNoFb sampleWorld rfl rfl).2 rfl⟩

theorem fetchSourceGo_trace (o : HttpOracle) (url : String) :
    ∀ fuel k, ∃ m, m ≤ fuel ∧ (1 ≤ fuel → 1 ≤ m) ∧
      (fetchSourceGo o url fuel k).2.2 =
        List.intersperse (FetchEv.slp 2) ((List.range' k m).map fun i => FetchEv.att url i) := by
  intro fuel
  induction fuel with
  | zero => exact fun k => ⟨0, Nat.le_refl 0, by omega, rfl⟩
  | succ fuel ih =>
      intro k
      simp only [fetchSourceGo]
      split
      · exact ⟨1, by omega, fun _ => Nat.le_refl 1, rfl⟩
      · by_cases hf : fuel = 0
        · refine ⟨1, by omega, fun _ => Nat.le_refl 1, ?_⟩
          rw [if_pos hf]
          rfl
        · obtain ⟨m, hmle, hmpos, htr⟩ := ih (k + 1)
          have hm1 : 1 ≤ m := hmpos (by omega)
          obtain ⟨m', rfl⟩ : ∃ m', m = m' + 1 := ⟨m - 1, by omega⟩
          refine ⟨m' + 2, by omega, fun _ => by omega, ?_⟩
          rw [if_neg hf]
          show FetchEv.att url k :: FetchEv.slp 2 :: (fetchSourceGo o url fuel (k + 1)).2.2 = _
          rw [htr]
          simp [List.range', List.intersperse]

theorem fetchSourceGo_fail (o : HttpOracle) (url : String) :
    ∀ fuel k, (∀ i, k ≤ i → i < k + fuel → isSuccess (o url i) = false) →
      (fetchSourceGo o url fuel k).1 = ∅ := by
  intro fuel
  induction fuel with
  | zero => exact fun k _ => rfl
  | succ fuel ih =>
      intro k h
      simp only [fetchSourceGo]
      split
      · rename_i lines heq
        have hk := h k (Nat.le_refl k) (by omega)
        rw [heq] at hk
        simp [isSuccess] at hk
      · by_cases hf : fuel = 0
        · rw [if_pos hf]
        · rw [if_neg hf]
          show (fetchSourceGo o url fuel (k + 1)).1 = ∅
          exact ih (k + 1) fun i h1 h2 => h i (by omega) (by omega)

theorem fetchAllGo_eq_foldr (o : HttpOracle) (maxRetries : Nat) :
    ∀ sources : List String,
      (fetchAllGo o maxRetries sources).1 =
        sources.foldr (fun u acc => (fetchSource o u maxRetries).1 ∪ acc) ∅ := by
  intro sources
  induction sources with
  | nil => rfl
  | cons u rest ih => simp [fetchAllGo, ih]

/-- Claim C5: Per source: the retry loop makes at most `max_retries`
attempts, with a single `sleep(2)` between consecutive failed attempts
(the trace is attempts interspersed with 2-second sleeps); a source
failing every attempt contributes the empty set and leaves the other
sources' contribution untouched; and `fetch_trackers` is a total
function (it cannot raise) returning exactly the union of the valid
entries of the successful sources. -/
theorem c5_fetch_properties :
    (∀ (o : HttpOracle) (url : String) (maxRetries : Nat), ∃ m, m ≤ maxRetries ∧
        (fetchSource o url maxRetries).2.2 =
          List.intersperse (FetchEv.slp 2) ((List.range m).map fun k => FetchEv.att url k)) ∧
    (∀ (o : HttpOracle) (maxRetries : Nat) (url : String) (sources : List String),
        (∀ k, k < maxRetries → isSuccess (o url k) = false) →
        (fetchSource o url maxRetries).1 = ∅ ∧
        (fetchAllGo o maxRetries (url :: sources)).1 = (fetchAllGo o maxRetries sources).1) ∧
    (∀ (o : HttpOracle) (maxRetries : Nat) (sources : List String),
        (fetch_trackers o sources maxRetries).1.toFinset =
          sources.foldr (fun u acc => (fetchSource o u maxRetries).1 ∪ acc) ∅) := by
  refine ⟨fun o url maxRetries => ?_, fun o maxRetries url sources h => ?_, fun o maxRetries sources => ?_⟩
  · obtain ⟨m, hle, -, htr⟩ := fetchSourceGo_trace o url maxRetries 0
    exact ⟨m, hle, by rw [List.range_eq_range']; exact htr⟩
  · have hempty : (fetchSource o url maxRetries).1 = ∅ :=
      fetchSourceGo_fail o url maxRetries 0 fun i h1 h2 => h i (by omega)
    refine ⟨hempty, ?_⟩
    show (fetchSource o url maxRetries).1 ∪ (fetchAllGo o maxRetries sources).1 = _
    rw [hempty, Finset.empty_union]
  · show ((fetchAllGo o maxRetries sources).1.sort (· ≤ ·)).toFinset = _
    rw [Finset.sort_toFinset, fetchAllGo_eq_foldr]

theorem c5_witness :
    (fetchSource failOracle "u" 3).1 = ∅ ∧
    (fetchAllGo failOracle 3 ["u"]).1 = (fetchAllGo failOracle 3 []).1 :=
  c5_fetch_properties.2.1 failOracle 3 "u" [] fun _ _ => rfl

theorem dropWhile_fix_head {p : Char → Bool} {c : Char} {l : List Char}
    (h : List.dropWhile p (c :: l) = c :: l) : p c = false := by
  by_cases hp : p c
  · exfalso
    rw [List.dropWhile_cons, if_pos hp] at h
    have h1 := List.Sublist.length_le (List.dropWhile_sublist (l := l) p)
    have h2 := congrArg List.length h
    simp at h2
    omega
  · exact Bool.eq_false_iff.mpr hp

theorem strip_fix_parts {l : List Char} (h : pyStripList l = l) :
    stripLeft l = l ∧ stripRight l = l := by
  have hsub : (stripLeft l).Sublist l := List.dropWhile_sublist pyWs
  have h2 : (stripRight (stripLeft l)).length ≤ (stripLeft l).length := by
    unfold stripRight
    rw [List.length_reverse]
    calc ((stripLeft l).reverse.dropWhile pyWs).length
        ≤ (stripLeft l).reverse.length := List.Sublist.length_le (List.dropWhile_sublist pyWs)
      _ = (stripLeft l).length := List.length_reverse _
  have heq : (pyStripList l).length = l.length := by rw [h]
  have h1 : (stripLeft l).length ≤ l.length := List.Sublist.length_le hsub
  have hsl : (stripLeft l).length = l.length := by
    unfold pyStripList at heq
    omega
  have hfix : stripLeft l = l := List.Sublist.eq_of_length hsub hsl
  refine ⟨hfix, ?_⟩
  unfold pyStripList at h
  rwa [hfix] at h

theorem strip_fix_head {c : Char} {rest : List Char} (h : pyStripList (c :: rest) = c :: rest) :
    pyWs c = false :=
  dropWhile_fix_head (strip_fix_parts h).1

theorem strip_fix_last {w : List Char} {c : Char} (h : pyStripList (w ++ [c]) = w ++ [c]) :
    pyWs c = false := by
  have h2 : stripRight (w ++ [c]) = w ++ [c] := (strip_fix_parts h).2
  unfold stripRight at h2
  have h3 : (w ++ [c]).reverse.dropWhile pyWs = (w ++ [c]).reverse := by
    have := congrArg List.reverse h2
    simpa using this
  rw [List.reverse_append] at h3
  simp only [List.reverse_singleton, List.singleton_append] at h3
  exact dropWhile_fix_head h3

theorem stripLeft_cons_not_ws {c : Char} (h : pyWs c = false) (l : List Char) :
    stripLeft (c :: l) = c :: l := by
  simp [stripLeft, List.dropWhile_cons, h]

theorem stripRight_append_nl (l : List Char) :
    stripRight (l ++ ['\n']) = stripRight l := by
  simp [stripRight, List.reverse_append, List.dropWhile_cons,
    show pyWs '\n' = true by decide]

theorem stripRight_append_not_ws {c : Char} (h : pyWs c = false) (l : List Char) :
    stripRight (l ++ [c]) = l ++ [c] := by
  simp [stripRight, List.reverse_append, List.dropWhile_cons, h]

theorem splitSepsF_token :
    ∀ (t acc l : List Char), (∀ c ∈ t, isSep c = false) →
      splitSepsF false acc (t ++ l) = splitSepsF false (t.reverse ++ acc) l := by
  intro t
  induction t with
  | nil => simp
  | cons c t' ih =>
      intro acc l h
      have hc : isSep c = false := h c (by simp)
      show splitSepsF false acc (c :: (t' ++ l)) = _
      rw [show splitSepsF false acc (c :: (t' ++ l)) =
            if isSep c then
              if false then splitSepsF true [] (t' ++ l)
              else acc.reverse :: splitSepsF true [] (t' ++ l)
            else splitSepsF false (c :: acc) (t' ++ l) from rfl, hc]
      simp only [Bool.false_eq_true, if_false]
      rw [ih (c :: acc) l fun d hd => h d (by simp [hd])]
      simp [List.append_assoc]

theorem joinCommaData_cons_head (u : List Char) (rest : List (List Char)) :
    ∃ z, joinCommaData (u :: rest) = u ++ z := by
  cases rest with
  | nil => exact ⟨[], (List.append_nil u).symm⟩
  | cons x xs => exact ⟨',' :: joinCommaData (x :: xs), rfl⟩

theorem splitSepsF_join :
    ∀ ts : List (List Char), (∀ t ∈ ts, t ≠ [] ∧ ∀ c ∈ t, isSep c = false) → ts ≠ [] →
      splitSepsF false [] (joinCommaData ts) = ts := by
  intro ts
  induction ts with
  | nil => exact fun _ hne => absurd rfl hne
  | cons t rest ih =>
      intro h _
      cases rest with
      | nil =>
          have h2 := splitSepsF_token t [] [] (h t (by simp)).2
          simp only [List.append_nil] at h2
          rw [show joinCommaData [t] = t from rfl, h2]
          show [t.reverse.reverse] = [t]
          simp
      | cons u rest' =>
          have hune : u ≠ [] := (h u (by simp)).1
          obtain ⟨c, u', hu⟩ := List.exists_cons_of_ne_nil hune
          have hc : isSep c = false := (h u (by simp)).2 c (by simp [hu])
          obtain ⟨z, hz⟩ := joinCommaData_cons_head u rest'
          have hih := ih (fun x hx => h x (by simp [hx])) (by simp)
          have hstart : splitSepsF true [] (joinCommaData (u :: rest')) =
              splitSepsF false [] (joinCommaData (u :: rest')) := by
            rw [hz, hu]
            simp only [List.cons_append]
            simp [splitSepsF, hc]
          rw [show joinCommaData (t :: u :: rest') = t ++ ',' :: joinCommaData (u :: rest')
              from rfl]
          rw [splitSepsF_token t [] _ (h t (by simp)).2]
          rw [show splitSepsF false (t.reverse ++ []) (',' :: joinCommaData (u :: rest')) =
                (t.reverse ++ []).reverse ::
                  splitSepsF true [] (joinCommaData (u :: rest')) from by
              simp [splitSepsF, isSep]]
          rw [hstart, hih]
          simp

theorem readlinesGo_line (s : List Char) (hs : '\n' ∉ s) :
    ∀ acc rest, readlinesGo acc ((s ++ ['\n']) ++ rest) =
      ((acc.reverse ++ s) ++ ['\n']) :: readlinesGo [] rest := by
  induction s with
  | nil =>
      intro acc rest
      show readlinesGo acc ('\n' :: rest) = _
      simp [readlinesGo]
  | cons c s' ih =>
      intro acc rest
      have hc : ¬ c = '\n' := fun hh => hs (by simp [hh])
      have hs' : '\n' ∉ s' := fun hh => hs (by simp [hh])
      show readlinesGo acc (c :: ((s' ++ ['\n']) ++ rest)) = _
      rw [show readlinesGo acc (c :: ((s' ++ ['\n']) ++ rest)) =
            if c = '\n' then ('\n' :: acc).reverse :: readlinesGo [] ((s' ++ ['\n']) ++ rest)
            else readlinesGo (c :: acc) ((s' ++ ['\n']) ++ rest) from rfl,
        if_neg hc, ih hs' (c :: acc) rest]
      simp

theorem readlinesGo_flatten (ls : List (List Char))
    (h : ∀ x ∈ ls, ∃ s, x = s ++ ['\n'] ∧ '\n' ∉ s) :
    readlinesGo [] ls.flatten = ls := by
  induction ls with
  | nil => rfl
  | cons x ls' ih =>
      obtain ⟨s, hx, hs⟩ := h x (by simp)
      rw [List.flatten_cons, hx, readlinesGo_line s hs [] ls'.flatten,
        ih fun y hy => h y (by simp [hy])]
      simp

theorem readlinesGo_wf :
    ∀ (l : List Char) (acc : List Char), '\n' ∉ acc → l.getLast? = some '\n' →
      ∀ x ∈ readlinesGo acc l, ∃ s, x = s ++ ['\n'] ∧ '\n' ∉ s := by
  intro l
  induction l with
  | nil => intro acc _ hlast; simp at hlast
  | cons c rest ih =>
      intro acc hacc hlast x hx
      cases rest with
      | nil =>
          have hc : c = '\n' := by simpa using hlast
          subst hc
          simp [readlinesGo] at hx
          exact ⟨acc.reverse, by simp [hx], by simpa using hacc⟩
      | cons d rest' =>
          have hlast' : (d :: rest').getLast? = some '\n' := by
            rwa [ List.getLast?_cons_cons] at hlast
          by_cases hc : c = '\n'
          · subst hc
            rw [show readlinesGo acc ('\n' :: d :: rest') =
                  ('\n' :: acc).reverse :: readlinesGo [] (d :: rest') from rfl] at hx
            rcases List.mem_cons.mp hx with hx1 | hx2
            · exact ⟨acc.reverse, by simp [hx1], by simpa using hacc⟩
            · exact ih [] (by simp) hlast' x hx2
          · rw [show readlinesGo acc (c :: d :: rest') =
                  if c = '\n' then ('\n' :: acc).reverse :: readlinesGo [] (d :: rest')
                  else readlinesGo (c :: acc) (d :: rest') from rfl, if_neg hc] at hx
            have hacc' : '\n' ∉ c :: acc := by
              intro hh
              rcases List.mem_cons.mp hh with h1 | h2
              · exact hc h1.symm
              · exact hacc h2
            exact ih (c :: acc) hacc' hlast' x hx

theorem rewriteLines_cons_match (l : String) (rest : List String) (tl : String)
    (h : lineMatches l = true) :
    rewriteLines (l :: rest) tl = tl :: (rewriteGo tl rest).1 := by
  simp [rewriteLines, rewriteGo, h]

theorem rewriteLines_cons_not_match (l : String) (rest : List String) (tl : String)
    (h : lineMatches l = false) :
    rewriteLines (l :: rest) tl = l :: rewriteLines rest tl := by
  rcases hr : (rewriteGo tl rest).2 with hv | hv <;>
    simp [rewriteLines, rewriteGo, h, hr]

theorem rewriteLines_mem (lines : List String) (tl : String) :
    ∀ x ∈ rewriteLines lines tl, x = tl ∨ (x ∈ lines ∧ lineMatches x = false) := by
  intro x hx
  rw [show rewriteLines lines tl =
        if (rewriteGo tl lines).2 = true then (rewriteGo tl lines).1
        else (rewriteGo tl lines).1 ++ [tl] from rfl] at hx
  have hsplit : x ∈ (rewriteGo tl lines).1 ∨ x = tl := by
    rcases hr : (rewriteGo tl lines).2
    · rw [hr] at hx
      simp only [Bool.false_eq_true, if_false, List.mem_append, List.mem_singleton] at hx
      exact hx
    · rw [hr] at hx
      exact Or.inl (by simp at hx; exact hx)
  rcases hsplit with hx1 | hx1
  · rw [rewriteGo_fst] at hx1
    obtain ⟨l, hl, hxl⟩ := List.mem_map.mp hx1
    by_cases hm : lineMatches l
    · left; rw [← hxl]; simp [hm]
    · right
      rw [← hxl]
      simp only [hm, Bool.false_eq_true, if_false]
      exact ⟨hl, trivial⟩
  · exact Or.inl hx1

theorem extract_rewrite_hit (tl : String) (hq : lineQualifies tl = true) :
    ∀ lines, extract_current_bt_trackers (rewriteLines lines tl) =
      parseTrackerValue (pyStrip (pyDropChars (pyStrip tl) 11)) := by
  intro lines
  induction lines with
  | nil =>
      rw [show rewriteLines [] tl = [tl] from rfl]
      exact extract_cons_hit tl [] hq
  | cons l rest ih =>
      by_cases hm : lineMatches l
      · rw [rewriteLines_cons_match l rest tl hm]
        exact extract_cons_hit tl _ hq
      · rw [rewriteLines_cons_not_match l rest tl (by simpa using hm),
          extract_cons_skip l _ (by simp [lineQualifies, hm])]
        exact ih

theorem extract_rewrite_skip (tl : String) (hq : lineQualifies tl = false)
    (lines : List String) :
    extract_current_bt_trackers (rewriteLines lines tl) = [] := by
  apply extract_all_skip
  intro p hp
  rcases rewriteLines_mem lines tl p hp with h | ⟨-, hm⟩
  · rw [h]; exact hq
  · simp [lineQualifies, hm]

theorem joinCommaData_last :
    ∀ (ts : List (List Char)) (t : List Char), ts.getLast? = some t →
      ∃ w, joinCommaData ts = w ++ t := by
  intro ts
  induction ts with
  | nil => intro t h; simp at h
  | cons x rest ih =>
      intro t h
      cases rest with
      | nil =>
          have hx : x = t := by simpa using h
          exact ⟨[], by simp [joinCommaData, hx]⟩
      | cons y rest' =>
          have h2 : (y :: rest').getLast? = some t := by
            rwa [ List.getLast?_cons_cons] at h
          obtain ⟨w, hw⟩ := ih t h2
          refine ⟨x ++ ',' :: w, ?_⟩
          rw [show joinCommaData (x :: y :: rest') = x ++ ',' :: joinCommaData (y :: rest')
              from rfl, hw]
          simp

theorem joinCommaData_no_nl (ts : List (List Char))
    (h : ∀ t ∈ ts, ∀ c ∈ t, isSep c = false) : '\n' ∉ joinCommaData ts := by
  induction ts with
  | nil => simp [joinCommaData]
  | cons x rest ih =>
      cases rest with
      | nil =>
          intro hmem
          have := h x (by simp) '\n' (by simpa [joinCommaData] using hmem)
          simp [isSep] at this
      | cons y rest' =>
          intro hmem
          rw [show joinCommaData (x :: y :: rest') = x ++ ',' :: joinCommaData (y :: rest')
              from rfl] at hmem
          rcases List.mem_append.mp hmem with h1 | h2
          · have := h x (by simp) '\n' h1
            simp [isSep] at this
          · rcases List.mem_cons.mp h2 with h3 | h4
            · exact (by decide : ('\n' : Char) ≠ ',') h3
            · exact ih (fun u hu => h u (by simp [hu])) h4

theorem trackerLine_data (cl : List String) :
    (trackerLine cl).data =
      ("bt-tracker=".data ++ joinCommaData (cl.map String.data)) ++ ['\n'] := by
  show ("bt-tracker=" ++ joinComma cl ++ "\n").data = _
  rw [String.data_append, String.data_append]
  show "bt-tracker=".data ++ (joinCommaData (cl.map String.data) ++ ['\n']) = _
  rw [List.append_assoc]

theorem roundtrip_lines (cl : List String)
    (hcl : ∀ t ∈ cl, t ≠ "" ∧ pyStrip t = t ∧ ∀ ch ∈ t.data, isSep ch = false) :
    (cl ≠ [] →
      ∀ lines, extract_current_bt_trackers (rewriteLines lines (trackerLine cl)) = cl) ∧
    (cl = [] →
      ∀ lines, extract_current_bt_trackers (rewriteLines lines (trackerLine cl)) = []) := by
  have hts : ∀ x ∈ cl.map String.data, x ≠ [] ∧ ∀ ch ∈ x, isSep ch = false := by
    intro x hx
    obtain ⟨t, ht, hxt⟩ := List.mem_map.mp hx
    refine ⟨fun hnil => (hcl t ht).1 (String.ext (by rw [hxt, hnil])), ?_⟩
    intro ch hch
    exact (hcl t ht).2.2 ch (by rw [hxt]; exact hch)
  constructor
  · intro hne lines
    -- decompose the joined value at both ends
    obtain ⟨t1, cl', hcl1⟩ := List.exists_cons_of_ne_nil hne
    have ht1 : t1 ∈ cl := by rw [hcl1]; simp
    have ht1ne : t1.data ≠ [] := fun hnil => (hcl t1 ht1).1 (String.ext (by rw [hnil]))
    obtain ⟨c1, t1r, ht1d⟩ := List.exists_cons_of_ne_nil ht1ne
    have ht1strip : pyStripList t1.data = t1.data := congrArg String.data (hcl t1 ht1).2.1
    have hc1 : pyWs c1 = false := strip_fix_head (by rwa [ht1d] at ht1strip)
    have hmap1 : cl.map String.data = t1.data :: cl'.map String.data := by rw [hcl1]; simp
    obtain ⟨z, hz⟩ := joinCommaData_cons_head t1.data (cl'.map String.data)
    have hvhead : joinCommaData (cl.map String.data) = c1 :: (t1r ++ z) := by
      rw [hmap1, hz, ht1d]
      simp
    -- last token
    have hlast : cl.getLast? = some (cl.getLast hne) := List.getLast?_eq_getLast cl hne
    have htlast : (cl.map String.data).getLast? = some (cl.getLast hne).data := by
      rw [ List.getLast?_map, hlast]
      rfl
    have htlmem : cl.getLast hne ∈ cl := List.getLast_mem hne
    have htlne : (cl.getLast hne).data ≠ [] := fun hnil =>
      (hcl _ htlmem).1 (String.ext (by rw [hnil]))
    have htlstrip : pyStripList (cl.getLast hne).data = (cl.getLast hne).data :=
      congrArg String.data (hcl _ htlmem).2.1
    have hclast : pyWs ((cl.getLast hne).data.getLast htlne) = false := by
      apply strip_fix_last (w := (cl.getLast hne).data.dropLast)
      rwa [List.dropLast_append_getLast htlne]
    obtain ⟨w, hw⟩ := joinCommaData_last (cl.map String.data) (cl.getLast hne).data htlast
    have hvlast : joinCommaData (cl.map String.data) =
        (w ++ (cl.getLast hne).data.dropLast) ++ [(cl.getLast hne).data.getLast htlne] := by
      rw [hw]
      conv_lhs => rw [← List.dropLast_append_getLast htlne]
      simp
    -- strip of the directive line
    have hstrip_tl : pyStrip (trackerLine cl) =
        ⟨"bt-tracker=".data ++ joinCommaData (cl.map String.data)⟩ := by
      show (⟨pyStripList (trackerLine cl).data⟩ : String) = _
      rw [trackerLine_data]
      congr 1
      unfold pyStripList
      rw [show ("bt-tracker=".data ++ joinCommaData (cl.map String.data)) ++ ['\n'] =
            'b' :: (("t-tracker=".data ++ joinCommaData (cl.map String.data)) ++ ['\n'])
          from rfl]
      rw [stripLeft_cons_not_ws (by decide)]
      rw [show 'b' :: (("t-tracker=".data ++ joinCommaData (cl.map String.data)) ++ ['\n']) =
            ("bt-tracker=".data ++ joinCommaData (cl.map String.data)) ++ ['\n'] from rfl]
      rw [stripRight_append_nl]
      rw [hvlast]
      rw [show "bt-tracker=".data ++ ((w ++ (cl.getLast hne).data.dropLast) ++
            [(cl.getLast hne).data.getLast htlne]) =
          ("bt-tracker=".data ++ (w ++ (cl.getLast hne).data.dropLast)) ++
            [(cl.getLast hne).data.getLast htlne] from by simp]
      rw [stripRight_append_not_ws hclast]
    have hmatch : lineMatches (trackerLine cl) = true := by
      unfold lineMatches pyStartsWith
      rw [hstrip_tl]
      exact isPrefixOf_exists.mpr ⟨joinCommaData (cl.map String.data), rfl⟩
    have hdrop : pyDropChars (pyStrip (trackerLine cl)) 11 =
        ⟨joinCommaData (cl.map String.data)⟩ := by
      rw [hstrip_tl]
      rfl
    have hstrip_v : pyStrip ⟨joinCommaData (cl.map String.data)⟩ =
        ⟨joinCommaData (cl.map String.data)⟩ := by
      show (⟨pyStripList (joinCommaData (cl.map String.data))⟩ : String) = _
      congr 1
      unfold pyStripList
      rw [hvhead, stripLeft_cons_not_ws hc1,
        show c1 :: (t1r ++ z) = joinCommaData (cl.map String.data) from hvhead.symm]
      rw [hvlast, stripRight_append_not_ws hclast]
    have hvne : joinCommaData (cl.map String.data) ≠ [] := by
      rw [hvhead]; simp
    have hqual : lineQualifies (trackerLine cl) = true := by
      unfold lineQualifies
      rw [hmatch, hdrop, hstrip_v]
      simpa using hvne
    rw [extract_rewrite_hit (trackerLine cl) hqual lines, hdrop, hstrip_v]
    unfold parseTrackerValue pySplitSeps
    rw [show (⟨joinCommaData (cl.map String.data)⟩ : String).data =
          joinCommaData (cl.map String.data) from rfl]
    rw [splitSepsF_join (cl.map String.data) hts (by rw [hmap1]; simp)]
    have hmk : (cl.map String.data).map (fun l : List Char => (⟨l⟩ : String)) = cl := by
      rw [List.map_map]
      calc cl.map ((fun l : List Char => (⟨l⟩ : String)) ∘ String.data) = cl.map id :=
            List.map_congr_left fun a _ => rfl
        _ = cl := List.map_id cl
    rw [hmk]
    have hmapstrip : cl.map pyStrip = cl := by
      calc cl.map pyStrip = cl.map id := List.map_congr_left fun a ha => (hcl a ha).2.1
        _ = cl := List.map_id cl
    rw [hmapstrip]
    apply List.filter_eq_self.mpr
    intro a ha
    have : a.data ≠ [] := fun hnil => (hcl a ha).1 (String.ext (by rw [hnil]))
    simpa using this
  · intro hnil lines
    subst hnil
    have hq : lineQualifies (trackerLine []) = false := by decide
    exact extract_rewrite_skip (trackerLine []) hq lines

/-- Claim C8, counterexample: A merged set containing a tracker with an
embedded comma does not survive the round trip: the written directive is
re-read as two separate trackers. -/
theorem c8_counterexample :
    (extract_current_bt_trackers (pyReadlines (writelinesContent
        (rewriteLines (pyReadlines "x=1\n")
          (trackerLine (({"http://a,b"} : Finset String).sort (· ≤ ·))))))).toFinset
      ≠ ({"http://a,b"} : Finset String) := by
  rw [Finset.sort_singleton]
  decide

/-- Claim C8, amended: Writing a merged set whose trackers are non-empty,
already stripped, and free of commas and newlines to a newline-terminated
(or empty) config file and re-reading it through the StateReader yields
exactly that set, order-insensitively. -/
theorem c8_roundtrip (S : Finset String) (c : String)
    (hS : ∀ t ∈ S, t ≠ "" ∧ pyStrip t = t ∧ ∀ ch ∈ t.data, isSep ch = false)
    (hc : c = "" ∨ c.data.getLast? = some '\n') :
    (extract_current_bt_trackers (pyReadlines (writelinesContent
        (rewriteLines (pyReadlines c) (trackerLine (S.sort (· ≤ ·))))))).toFinset = S := by
  have hcl : ∀ t ∈ S.sort (· ≤ ·), t ≠ "" ∧ pyStrip t = t ∧ ∀ ch ∈ t.data, isSep ch = false :=
    fun t ht => hS t ((Finset.mem_sort _).mp ht)
  have hts_sep : ∀ x ∈ (S.sort (· ≤ ·)).map String.data, ∀ ch ∈ x, isSep ch = false := by
    intro x hx ch hch
    obtain ⟨t, ht, hxt⟩ := List.mem_map.mp hx
    exact (hcl t ht).2.2 ch (by rw [hxt]; exact hch)
  have hv_nl : '\n' ∉ joinCommaData ((S.sort (· ≤ ·)).map String.data) :=
    joinCommaData_no_nl _ hts_sep
  have htl_nl :
      '\n' ∉ ("bt-tracker=".data ++ joinCommaData ((S.sort (· ≤ ·)).map String.data)) := by
    intro hmem
    rcases List.mem_append.mp hmem with h1 | h2
    · exact absurd h1 (by decide)
    · exact hv_nl h2
  have horig_wf : ∀ x ∈ pyReadlines c, ∃ s, x.data = s ++ ['\n'] ∧ '\n' ∉ s := by
    intro x hx
    rcases hc with hc0 | hcn
    · subst hc0
      rw [show pyReadlines "" = [] from rfl] at hx
      exact absurd hx (List.not_mem_nil x)
    · obtain ⟨y, hy, hxy⟩ := List.mem_map.mp hx
      obtain ⟨s, hys, hsn⟩ := readlinesGo_wf c.data [] (by simp) hcn y hy
      refine ⟨s, ?_, hsn⟩
      rw [← hxy]
      exact hys
  have hnew_wf :
      ∀ x ∈ (rewriteLines (pyReadlines c) (trackerLine (S.sort (· ≤ ·)))).map String.data,
        ∃ s, x = s ++ ['\n'] ∧ '\n' ∉ s := by
    intro x hx
    obtain ⟨y, hy, hxy⟩ := List.mem_map.mp hx
    rcases rewriteLines_mem _ _ y hy with h1 | ⟨h2, -⟩
    · refine ⟨"bt-tracker=".data ++ joinCommaData ((S.sort (· ≤ ·)).map String.data), ?_,
        htl_nl⟩
      rw [← hxy, h1]
      exact trackerLine_data _
    · obtain ⟨s, hys, hsn⟩ := horig_wf y h2
      exact ⟨s, by rw [← hxy]; exact hys, hsn⟩
  have hident : pyReadlines (writelinesContent (rewriteLines (pyReadlines c)
        (trackerLine (S.sort (· ≤ ·))))) =
      rewriteLines (pyReadlines c) (trackerLine (S.sort (· ≤ ·))) := by
    show ((readlinesGo []
        (((rewriteLines (pyReadlines c) (trackerLine (S.sort (· ≤ ·)))).map
          String.data).flatten)).map fun l => (⟨l⟩ : String)) = _
    rw [readlinesGo_flatten _ hnew_wf, List.map_map]
    calc (rewriteLines (pyReadlines c) (trackerLine (S.sort (· ≤ ·)))).map
          ((fun l : List Char => (⟨l⟩ : String)) ∘ String.data)
        = (rewriteLines (pyReadlines c) (trackerLine (S.sort (· ≤ ·)))).map id :=
          List.map_congr_left fun a _ => rfl
      _ = _ := List.map_id _
  rw [hident]
  by_cases hSe : S = ∅
  · subst hSe
    rw [show (∅ : Finset String).sort (· ≤ ·) = [] from Finset.sort_empty _]
    rw [(roundtrip_lines [] (by simp)).2 rfl (pyReadlines c)]
    rfl
  · have hne : S.sort (· ≤ ·) ≠ [] := fun hnil => hSe (by
      simpa [Finset.sort_toFinset] using congrArg List.toFinset hnil)
    rw [(roundtrip_lines (S.sort (· ≤ ·)) hcl).1 hne (pyReadlines c)]
    exact Finset.sort_toFinset _ _

theorem c8_witness :
    (extract_current_bt_trackers (pyReadlines (writelinesContent
        (rewriteLines (pyReadlines "x=1\n")
          (trackerLine (({"udp://a:1/x"} : Finset String).sort (· ≤ ·))))))).toFinset
      = ({"udp://a:1/x"} : Finset String) :=
  c8_roundtrip {"udp://a:1/x"} "x=1\n"
    (fun t ht => by
      rw [Finset.mem_singleton] at ht
      subst ht
      exact ⟨by decide, by decide, by decide⟩)
    (Or.inr (by decide))
